import Mathlib

/-!
Verification of the EMO conversational-agent runtime against its design
documents. The definitions below are shallow embeddings of the program's
operational fragments: the Memory Store's lock-and-retry discipline
(src/ARCHITECTURE.md, ChromaDB thread-safe memory section), the streaming
chat endpoint and its client (src/unnamed/part_000, chat_stream;
src/frontend/src/components/chat/ChatContainer.tsx, sendMessage), the
fast-path memory-query skip (src/emo-nextjs/backend/PERFORMANCE_OPTIMIZATION.md),
the Gemma agent tool loop (src/unnamed/part_004), the tool error wrapper and
agent-level error handler (src/unnamed/part_005), and the memory supersession
contract. Machine behaviour that is nondeterministic at runtime (engine
faults, model replies, SSE event arrival) is passed in explicitly as oracle
functions or event lists.
-/

namespace EMO

/-! ## Memory Store: bounded retry with linear backoff

Embedding of the retry loop in src/ARCHITECTURE.md:

  for attempt in range(MAX_RETRIES):
      try:
          with _chroma_lock:
              # operation
              break
      except Exception as e:
          if attempt < MAX_RETRIES - 1:
              time.sleep(RETRY_DELAY * (attempt + 1))  # 0.5s, 1.0s, 1.5s

with MAX_RETRIES = 3 and RETRY_DELAY = 0.5 s. Delays are tracked in
milliseconds (RETRY_DELAY = 500 ms) to stay in Nat. The underlying engine
call is an oracle from the attempt index to its outcome. After exhausting
all attempts the operation returns an error value instead of raising
(save_to_memory returns an error string, query_memory an empty list,
get_memory_by_id None); that non-raising error return is the spec's typed
StoreUnavailable, modelled here as StoreResult.storeUnavailable. -/

def MAX_RETRIES : Nat := 3

def RETRY_DELAY_MS : Nat := 500

/-- Outcome of one underlying-engine call: the operation's value, or a
raised exception carrying a message (e.g. a transient SQLite lock error). -/
inductive AttemptOutcome where
  | success (v : Nat)
  | failure (msg : String)
deriving DecidableEq, Repr

def AttemptOutcome.isFail : AttemptOutcome → Bool
  | .success _ => false
  | .failure _ => true

/-- Result of a whole store operation as seen by the caller. -/
inductive StoreResult where
  | ok (v : Nat)
  | storeUnavailable
deriving DecidableEq, Repr

def StoreResult.isOk : StoreResult → Bool
  | .ok _ => true
  | .storeUnavailable => false

/-- One execution of the retry loop starting at attempt index `attempt`
with `fuel` attempts remaining. Returns the caller-visible result, the
number of attempts actually performed, and the list of sleep durations
(in ms) taken between attempts, in order. The sleep is skipped after the
final attempt, mirroring the `attempt < MAX_RETRIES - 1` guard. -/
def runAttempts (engine : Nat → AttemptOutcome) : Nat → Nat → StoreResult × Nat × List Nat
  | 0, _ => (.storeUnavailable, 0, [])
  | fuel + 1, attempt =>
    match engine attempt with
    | .success v => (.ok v, 1, [])
    | .failure _ =>
      if fuel = 0 then
        (.storeUnavailable, 1, [])
      else
        let rest := runAttempts engine fuel (attempt + 1)
        (rest.1, rest.2.1 + 1, RETRY_DELAY_MS * (attempt + 1) :: rest.2.2)

/-- A full store operation (put / query / get / supersede) under the
retry wrapper: run the loop from attempt 0 with MAX_RETRIES fuel. -/
def storeOp (engine : Nat → AttemptOutcome) : StoreResult × Nat × List Nat :=
  runAttempts engine MAX_RETRIES 0

def storeResult (engine : Nat → AttemptOutcome) : StoreResult :=
  (storeOp engine).1

def storeAttemptCount (engine : Nat → AttemptOutcome) : Nat :=
  (storeOp engine).2.1

def storeDelays (engine : Nat → AttemptOutcome) : List Nat :=
  (storeOp engine).2.2

/-- Engine oracle that fails on the first two attempts with a transient
lock error and succeeds on the third, as in the spec's scenario. -/
def lockTwiceEngine : Nat → AttemptOutcome := fun k =>
  if k < 2 then .failure "attempt to write a readonly database" else .success 42

/-- Engine oracle that fails on every attempt. -/
def alwaysLockedEngine : Nat → AttemptOutcome := fun _ =>
  .failure "attempt to write a readonly database"

theorem isFail_exists {o : AttemptOutcome} (h : o.isFail = true) : ∃ m, o = .failure m := by
  cases o with
  | success v => simp [AttemptOutcome.isFail] at h
  | failure m => exact ⟨m, rfl⟩

/-- C1: every store operation is retried under linear backoff: a failing
attempt numbered `attempt` (1-based: `j + 1` below) is followed by a wait of
`RETRY_DELAY_MS * (j + 1)` before the next attempt, up to MAX_RETRIES
attempts; if every attempt fails the operation returns the typed
StoreUnavailable value (it never raises — `storeOp` is total), having made
exactly MAX_RETRIES attempts and slept `base * 1, base * 2` between them;
and if attempt `k` succeeds after `k` failures within the limit, the
operation returns its normal success value with the `k` linear-backoff
waits and no error surfaced. -/
theorem store_retry_linear_backoff (engine : Nat → AttemptOutcome) :
    ((∀ k, k < MAX_RETRIES → (engine k).isFail = true) →
      storeOp engine =
        (.storeUnavailable, MAX_RETRIES, [RETRY_DELAY_MS * 1, RETRY_DELAY_MS * 2])) ∧
    (∀ k v, k < MAX_RETRIES → engine k = .success v →
      (∀ j, j < k → (engine j).isFail = true) →
      storeOp engine =
        (.ok v, k + 1, (List.range k).map fun j => RETRY_DELAY_MS * (j + 1))) := by
  constructor
  · intro hall
    obtain ⟨m0, e0⟩ := isFail_exists (hall 0 (by decide))
    obtain ⟨m1, e1⟩ := isFail_exists (hall 1 (by decide))
    obtain ⟨m2, e2⟩ := isFail_exists (hall 2 (by decide))
    simp [storeOp, MAX_RETRIES, runAttempts, e0, e1, e2]
  · intro k v hk hsucc hprev
    have hk3 : k < 3 := hk
    interval_cases k
    · simp [storeOp, MAX_RETRIES, runAttempts, hsucc]
    · obtain ⟨m0, e0⟩ := isFail_exists (hprev 0 (by decide))
      simp [storeOp, MAX_RETRIES, runAttempts, e0, hsucc, List.range_succ]
    · obtain ⟨m0, e0⟩ := isFail_exists (hprev 0 (by decide))
      obtain ⟨m1, e1⟩ := isFail_exists (hprev 1 (by decide))
      simp [storeOp, MAX_RETRIES, runAttempts, e0, e1, hsucc, List.range_succ]

/-- Witness for C1: the underlying engine rejects the first two attempts
with a transient lock error and succeeds on the third; the operation
returns the success value 42 after 3 attempts with waits of 500 ms and
1000 ms, and no error is surfaced. -/
theorem store_retry_linear_backoff_witness :
    storeOp lockTwiceEngine = (.ok 42, 3, [500, 1000]) := by
  have h := (store_retry_linear_backoff lockTwiceEngine).2 2 42 (by decide)
    (by decide) (by decide)
  simpa [RETRY_DELAY_MS] using h

/-! ## Context assembly: fast-path memory-query skip

Embedding of the implemented optimization in
src/emo-nextjs/backend/PERFORMANCE_OPTIMIZATION.md (section 2, applied state):

  simple_greetings = ["chào", "hi", "hello", "hey", "ok"]
  is_simple = any(g in user_message.lower() for g in simple_greetings) and len(user_message) < 20
  if not is_simple:
      memories = query_memory(user_message, n_results=2)

and of the accompanying change of query_memory's default (section 3):
  def query_memory(query: str, n_results: int = 2)

Python's `g in s` substring test is embedded as contiguous-sublist
containment on the character list; `.lower()` as character-wise toLower
(all greeting letters other than the already-lowercase 'à' are ASCII). -/

def startsWithL : List Char → List Char → Bool
  | [], _ => true
  | _ :: _, [] => false
  | a :: as, b :: bs => a == b && startsWithL as bs

def containsSub (needle : List Char) : List Char → Bool
  | [] => needle.isEmpty
  | c :: t => startsWithL needle (c :: t) || containsSub needle t

def simple_greetings : List String := ["chào", "hi", "hello", "hey", "ok"]

def is_simple (user_message : String) : Bool :=
  simple_greetings.any
      (fun g => containsSub g.toList (user_message.toList.map Char.toLower))
    && decide (user_message.length < 20)

/-- The n_results default of query_memory after the optimization pass. -/
def n_results_default : Nat := 2

/-- What the context-assembly step does with the Memory Store for a given
user message: either the query is skipped entirely, or query_memory is
invoked with the message text and an n_results count. -/
inductive MemQueryCall where
  | skipped
  | queried (text : String) (n_results : Nat)
deriving DecidableEq, Repr

def assembleMemoryStep (user_message : String) : MemQueryCall :=
  if is_simple user_message then .skipped
  else .queried user_message 2

/-- C4 counterexample: for a concrete non-trivial message the Memory Store
is queried with n_results = 2, and the configured query_memory default is
2, not approximately 5 — the optimization pass reduced both the call site
and the default from 5 to 2, so the claim's "top-K ... default of
approximately 5" fails on the code as it stands. -/
theorem assemble_topk_counterexample :
    assembleMemoryStep "what are my project deadlines this month" =
      .queried "what are my project deadlines this month" 2 ∧
    n_results_default = 2 ∧ n_results_default ≠ 5 ∧ ¬(4 ≤ n_results_default) := by
  refine ⟨by decide, rfl, by decide, by decide⟩

/-- C4 (amended): for every user message matching the fast-path trivial
classifier (a message of length under 20 characters containing one of the
greetings chào/hi/hello/hey/ok case-insensitively), the Memory Store query
is not invoked at all; for every other message the store is queried with
the message text and top-K where the call passes K = 2, equal to the
configured query_memory default of 2 (reduced from 5 by the performance
optimization). -/
theorem assemble_fast_path_skips_memory (msg : String) :
    (is_simple msg = true → assembleMemoryStep msg = .skipped) ∧
    (is_simple msg = false →
      assembleMemoryStep msg = .queried msg n_results_default) := by
  constructor <;> intro h <;> simp [assembleMemoryStep, h, n_results_default]

/-- Witness for C4 (amended): "hi" takes the fast path and no store query
is made; a longer non-greeting message is queried with K = 2. -/
theorem assemble_fast_path_witness :
    assembleMemoryStep "hi" = .skipped ∧
    assembleMemoryStep "summarize my latest invoices" =
      .queried "summarize my latest invoices" n_results_default :=
  ⟨(assemble_fast_path_skips_memory "hi").1 (by decide),
   (assemble_fast_path_skips_memory "summarize my latest invoices").2 (by decide)⟩

/-! ## Agent Loop: bounded tool round-trips -/

/-- Modelled from the spec: a model-backend reply is either a requested
tool call or a final answer (the model-backend contract of §6). -/
inductive ModelReply where
  | toolCall (name : String) (params : String)
  | finalAnswer (t : String)

/-- The documented cap: "Max iterations: 5 tool calls per message"
(src/unnamed/part_004, Performance table). -/
def MAX_TOOL_ITERATIONS : Nat := 5

structure LoopResult where
  response : String
  toolCallsMade : Nat
deriving DecidableEq, Repr

/-- Modelled from the spec: the body of GemmaAgent.chat's tool loop is not
in the repository snapshot; src/unnamed/part_004 documents only its
interface (chat / parse_tool_call / execute_tool) and its iteration cap,
and the spec fixes the over-cap behaviour as a forced transition to
Answering with a synthesized "unable to complete after N tool calls"
payload. `backend k` is the model's reply on the k-th invocation of the
turn; each requested tool call consumes one round-trip. -/
def agentLoopAux (backend : Nat → ModelReply) : Nat → Nat → LoopResult
  | 0, made =>
    { response := "unable to complete after " ++ toString MAX_TOOL_ITERATIONS ++ " tool calls",
      toolCallsMade := made }
  | fuel + 1, made =>
    match backend made with
    | .finalAnswer t => { response := t, toolCallsMade := made }
    | .toolCall _ _ => agentLoopAux backend fuel (made + 1)

def runAgentTurn (backend : Nat → ModelReply) : LoopResult :=
  agentLoopAux backend MAX_TOOL_ITERATIONS 0

/-- A stub backend that requests a tool call on every invocation. -/
def alwaysToolBackend : Nat → ModelReply := fun _ => .toolCall "search_gmail" "{}"

theorem agentLoopAux_toolCalls_le (backend : Nat → ModelReply) :
    ∀ fuel made, (agentLoopAux backend fuel made).toolCallsMade ≤ made + fuel := by
  intro fuel
  induction fuel with
  | zero => intro made; simp [agentLoopAux]
  | succ f ih =>
    intro made
    cases hb : backend made with
    | finalAnswer t => simp [agentLoopAux, hb]
    | toolCall n p =>
      have := ih (made + 1)
      simp only [agentLoopAux, hb]
      omega

theorem agentLoopAux_allTool (backend : Nat → ModelReply)
    (hall : ∀ k, ∃ n p, backend k = .toolCall n p) :
    ∀ fuel made, agentLoopAux backend fuel made =
      { response := "unable to complete after " ++ toString MAX_TOOL_ITERATIONS ++ " tool calls",
        toolCallsMade := made + fuel } := by
  intro fuel
  induction fuel with
  | zero => intro made; simp [agentLoopAux]
  | succ f ih =>
    intro made
    obtain ⟨n, p, hb⟩ := hall made
    simp only [agentLoopAux, hb, ih (made + 1)]
    congr 1
    omega

/-- C5: for every model backend the Agent Loop makes at most
MAX_TOOL_ITERATIONS (= 5) tool round-trips in one turn, and against a
backend that requests a tool call on every invocation it terminates after
exactly the cap with the synthesized "unable to complete after N tool
calls" payload instead of looping forever (the loop is a total function). -/
theorem agent_loop_bounded (backend : Nat → ModelReply) :
    (runAgentTurn backend).toolCallsMade ≤ MAX_TOOL_ITERATIONS ∧
    ((∀ k, ∃ n p, backend k = .toolCall n p) →
      runAgentTurn backend =
        { response := "unable to complete after " ++ toString MAX_TOOL_ITERATIONS ++ " tool calls",
          toolCallsMade := MAX_TOOL_ITERATIONS }) := by
  constructor
  · simpa using agentLoopAux_toolCalls_le backend MAX_TOOL_ITERATIONS 0
  · intro hall
    simpa using agentLoopAux_allTool backend hall MAX_TOOL_ITERATIONS 0

/-- Witness for C5: the always-tool stub backend is stopped after exactly
5 tool calls with the synthesized payload. -/
theorem agent_loop_bounded_witness :
    (runAgentTurn alwaysToolBackend).toolCallsMade ≤ MAX_TOOL_ITERATIONS ∧
    runAgentTurn alwaysToolBackend =
      { response := "unable to complete after " ++ toString MAX_TOOL_ITERATIONS ++ " tool calls",
        toolCallsMade := MAX_TOOL_ITERATIONS } :=
  ⟨(agent_loop_bounded alwaysToolBackend).1,
   (agent_loop_bounded alwaysToolBackend).2 (fun _ => ⟨"search_gmail", "{}", rfl⟩)⟩

/-! ## Memory Store: supersession -/

structure MemoryRecord where
  rid : Nat
  text : String
  metadata : List (String × String)
  supersedes : Option Nat
deriving DecidableEq, Repr

/-- A fresh id strictly larger than every id in the store. -/
def freshId (store : List MemoryRecord) : Nat :=
  (store.map (·.rid)).foldr max 0 + 1

/-- get(id): first record with the given id. -/
def getRecord (store : List MemoryRecord) (id : Nat) : Option MemoryRecord :=
  store.find? (fun r => r.rid == id)

/-- Modelled from the spec: supersede(old_id, new_text, metadata) writes a
new record linked to old_id and does not delete the old record. The body
of the corresponding tool update_long_term_memory is absent from the
repository snapshot (src/unnamed/part_012 lists only its purpose,
"Correct/update permanent facts"); per the spec a MemoryRecord is never
mutated in place — an update is a new record plus supersession metadata
pointing at the old id. The store is an append-only list. -/
def supersedeOp (store : List MemoryRecord) (old_id : Nat) (new_text : String)
    (md : List (String × String)) : List MemoryRecord :=
  store ++
    [{ rid := freshId store, text := new_text, metadata := md,
       supersedes := some old_id }]

theorem find?_append_of_some {α : Type} (p : α → Bool) (l₁ l₂ : List α) (a : α)
    (h : l₁.find? p = some a) : (l₁ ++ l₂).find? p = some a := by
  induction l₁ with
  | nil => simp [List.find?] at h
  | cons x xs ih =>
    by_cases hx : p x
    · simp only [List.find?, hx] at h ⊢
      exact h
    · simp only [List.find?, Bool.of_not_eq_true hx] at h ⊢
      exact ih h

/-- C6: supersede writes exactly one new record, linked to the old id and
carrying the new text; every pre-existing record is still present (nothing
is deleted or mutated in place), and a subsequent get(old_id) still
returns the original record unchanged. -/
theorem supersede_preserves_original (store : List MemoryRecord) (old_id : Nat)
    (new_text : String) (md : List (String × String)) (r : MemoryRecord)
    (h : getRecord store old_id = some r) :
    getRecord (supersedeOp store old_id new_text md) old_id = some r ∧
    (∀ x ∈ store, x ∈ supersedeOp store old_id new_text md) ∧
    ∃ newRec, supersedeOp store old_id new_text md = store ++ [newRec] ∧
      newRec.supersedes = some old_id ∧ newRec.text = new_text := by
  refine ⟨find?_append_of_some _ _ _ _ h, ?_, ?_⟩
  · intro x hx
    exact List.mem_append_left _ hx
  · exact ⟨_, rfl, rfl, rfl⟩

/-- Witness for C6: a one-record store; after superseding record 1 the
original record is returned unchanged by get(1). -/
theorem supersede_preserves_original_witness :
    getRecord
        (supersedeOp
          [{ rid := 1, text := "User likes tea", metadata := [], supersedes := none }]
          1 "User likes coffee" [("source", "correction")])
        1 =
      some { rid := 1, text := "User likes tea", metadata := [], supersedes := none } :=
  (supersede_preserves_original
    [{ rid := 1, text := "User likes tea", metadata := [], supersedes := none }]
    1 "User likes coffee" [("source", "correction")]
    { rid := 1, text := "User likes tea", metadata := [], supersedes := none }
    (by decide)).1

/-! ## Tool Registry & Executor -/

/-- Outcome of running a tool body: a returned string or a raised
exception carrying a message. -/
inductive ToolOutcome where
  | ok (out : String)
  | raised (msg : String)
deriving DecidableEq, Repr

inductive ToolResult where
  | success (out : String)
  | invalidArguments (msg : String)
  | toolExecutionError (msg : String)
deriving DecidableEq, Repr

/-- A registered tool: an argument-schema check and a body. -/
structure ToolSpec where
  validate : String → Bool
  run : String → ToolOutcome

/-- Modelled from the spec and the safe_tool wrapper of
src/unnamed/part_005: the executor validates arguments against the
declared spec before invocation (a mismatch yields InvalidArguments
without invoking the tool); an exception inside the body is caught and
converted to a ToolExecutionError whose message is "❌ Error: " plus the
first 100 characters of the exception text, mirroring

  except Exception as e:
      return f"❌ Error: {str(e)[:100]}"

The second component records whether the tool body was invoked. The
executor is a total function into ToolResult: no tool exception can
propagate and abort the Agent Loop, and failure results are ordinary data
re-offered to the model. -/
def executeTool (t : ToolSpec) (args : String) : ToolResult × Bool :=
  if t.validate args then
    match t.run args with
    | .ok out => (.success (if out.isEmpty then "✅ Done" else out), true)
    | .raised e => (.toolExecutionError ("❌ Error: " ++ (e.toList.take 100).asString), true)
  else
    (.invalidArguments "Invalid arguments", false)

/-- C7: an argument-schema mismatch yields an InvalidArguments result and
the tool body is not invoked; an exception inside the tool body is caught
and converted to a ToolExecutionError carrying a short message (at most
9 + 100 characters) instead of propagating; a normally returning body
yields its output as a success result. All three cases re-offer an
ordinary ToolResult value to the model — the executor never escapes with
an exception (it is total by construction). -/
theorem execute_tool_never_propagates (t : ToolSpec) (args : String) :
    (t.validate args = false →
      executeTool t args = (.invalidArguments "Invalid arguments", false)) ∧
    (∀ e, t.validate args = true → t.run args = .raised e →
      executeTool t args =
        (.toolExecutionError ("❌ Error: " ++ (e.toList.take 100).asString), true) ∧
      ("❌ Error: " ++ (e.toList.take 100).asString).length ≤ 109) ∧
    (∀ out, t.validate args = true → t.run args = .ok out →
      executeTool t args =
        (.success (if out.isEmpty then "✅ Done" else out), true)) := by
  refine ⟨?_, ?_, ?_⟩
  · intro hv
    simp [executeTool, hv]
  · intro e hv hr
    refine ⟨by simp [executeTool, hv, hr], ?_⟩
    have hlen : ((e.toList.take 100).asString).length ≤ 100 := by
      rw [List.length_asString, List.length_take]
      omega
    have happ : ("❌ Error: " ++ (e.toList.take 100).asString).length =
        ("❌ Error: " : String).length + ((e.toList.take 100).asString).length :=
      String.length_append _ _
    have hpre : ("❌ Error: " : String).length = 9 := by decide
    omega
  · intro out hv hr
    simp [executeTool, hv, hr]

/-- Witness for C7: a tool whose schema accepts only nonempty argument
strings and whose body raises on the argument "boom"; the executor
converts the raise to a ToolExecutionError message, and an empty argument
string is rejected without invoking the body. -/
theorem execute_tool_never_propagates_witness :
    executeTool
        { validate := fun a => !a.isEmpty,
          run := fun a => if a = "boom" then .raised "division by zero" else .ok "fine" }
        "boom" =
      (.toolExecutionError ("❌ Error: " ++ (("division by zero").toList.take 100).asString), true) ∧
    executeTool
        { validate := fun a => !a.isEmpty,
          run := fun a => if a = "boom" then .raised "division by zero" else .ok "fine" }
        "" =
      (.invalidArguments "Invalid arguments", false) :=
  ⟨((execute_tool_never_propagates
      { validate := fun a => !a.isEmpty,
        run := fun a => if a = "boom" then .raised "division by zero" else .ok "fine" }
      "boom").2.1 "division by zero" (by decide) (by decide)).1,
   (execute_tool_never_propagates
      { validate := fun a => !a.isEmpty,
        run := fun a => if a = "boom" then .raised "division by zero" else .ok "fine" }
      "").1 (by decide)⟩

/-! ## Agent-level error handler

Embedding of the outer exception handler of chat_with_agent in
src/unnamed/part_005:

  except Exception as e:
      if "tool_use_failed" in str(e).lower():
          result["response"] = "❌ Có lỗi khi sử dụng công cụ..."
      elif "rate_limit" in str(e).lower():
          result["response"] = "⏳ API quá tải..."
      else:
          result["response"] = f"❌ Lỗi: {str(e)[:150]}"

and of the client-side rendering of an error chunk in
src/frontend/src/components/chat/ChatContainer.tsx, which displays the
chunk's error text verbatim as message content ("Lỗi: " + chunk.error). -/

def chatAgentErrorResponse (e : String) : String :=
  if containsSub "tool_use_failed".toList (e.toList.map Char.toLower) then
    "❌ Có lỗi khi sử dụng công cụ..."
  else if containsSub "rate_limit".toList (e.toList.map Char.toLower) then
    "⏳ API quá tải..."
  else
    "❌ Lỗi: " ++ (e.toList.take 150).asString

def clientErrorDisplay (err : String) : String := "Lỗi: " ++ err

/-- C8 counterexample: for the concrete internal exception text
"connection refused by backend host" — which matches neither recognized
class — the user-visible response is "❌ Lỗi: " followed by the raw
exception text, so raw internal error text does reach the client on the
final channel, contradicting the claim as stated. -/
theorem raw_error_reaches_client_counterexample :
    chatAgentErrorResponse "connection refused by backend host" =
      "❌ Lỗi: connection refused by backend host" ∧
    containsSub "connection refused by backend host".toList
      (chatAgentErrorResponse "connection refused by backend host").toList = true := by
  constructor
  · decide
  · decide

/-- C8 (amended): a failure surfaced to the client carries a bounded
message produced by a fixed classification: exception text containing
"tool_use_failed" (case-insensitively) is replaced by a fixed short
non-technical message, text containing "rate_limit" by another; any other
exception surfaces as "❌ Lỗi: " followed by its raw text truncated to
150 characters (at most 7 + 150 characters in total) — so raw internal
error text can reach the client for unrecognized exceptions, truncated
but otherwise verbatim. -/
theorem error_response_classified (e : String) :
    (containsSub "tool_use_failed".toList (e.toList.map Char.toLower) = true →
      chatAgentErrorResponse e = "❌ Có lỗi khi sử dụng công cụ...") ∧
    (containsSub "tool_use_failed".toList (e.toList.map Char.toLower) = false →
      containsSub "rate_limit".toList (e.toList.map Char.toLower) = true →
      chatAgentErrorResponse e = "⏳ API quá tải...") ∧
    (containsSub "tool_use_failed".toList (e.toList.map Char.toLower) = false →
      containsSub "rate_limit".toList (e.toList.map Char.toLower) = false →
      chatAgentErrorResponse e = "❌ Lỗi: " ++ (e.toList.take 150).asString ∧
      (chatAgentErrorResponse e).length ≤ 7 + 150) := by
  refine ⟨?_, ?_, ?_⟩
  · intro h1
    unfold chatAgentErrorResponse
    rw [if_pos h1]
  · intro h1 h2
    unfold chatAgentErrorResponse
    rw [if_neg (by rw [h1]; exact Bool.false_ne_true), if_pos h2]
  · intro h1 h2
    have heq : chatAgentErrorResponse e = "❌ Lỗi: " ++ (e.toList.take 150).asString := by
      unfold chatAgentErrorResponse
      rw [if_neg (by rw [h1]; exact Bool.false_ne_true), if_neg (by rw [h2]; exact Bool.false_ne_true)]
    refine ⟨heq, ?_⟩
    rw [heq, String.length_append, List.length_asString, List.length_take]
    have : ("❌ Lỗi: " : String).length = 7 := by decide
    omega

/-- Witness for C8 (amended): a rate-limit exception is replaced by the
fixed short message. -/
theorem error_response_classified_witness :
    chatAgentErrorResponse "Groq rate_limit reached" = "⏳ API quá tải..." :=
  (error_response_classified "Groq rate_limit reached").2.1 (by decide) (by decide)

/-! ## Client-side email-intent routing

Embedding of the smart-routing check in
src/frontend/src/components/chat/ChatContainer.tsx:

  const isEmailQuery = /^(check email|đọc mail|xem mail|email|mail)/i.test(messageText.trim());
  if (isEmailQuery) {
      const response = await fetch("http://localhost:8000/api/emails/list");
      if (response.ok) { ...add assistant message...; return; }
      // If direct API fails, fall through to AI method
  }
  ...EventSource streaming pipeline...

The anchored case-insensitive alternation is embedded as a prefix test on
the trimmed, case-folded character list; the fold lowercases ASCII and the
uppercase forms of the two Vietnamese letters that occur in the pattern. -/

def EMAIL_QUERY_PATTERNS : List String :=
  ["check email", "đọc mail", "xem mail", "email", "mail"]

def jsFoldChar (c : Char) : Char :=
  if c = 'Đ' then 'đ' else if c = 'Ọ' then 'ọ' else c.toLower

def trimChars (l : List Char) : List Char :=
  ((l.dropWhile Char.isWhitespace).reverse.dropWhile Char.isWhitespace).reverse

def isEmailQuery (msg : String) : Bool :=
  EMAIL_QUERY_PATTERNS.any
    (fun p => startsWithL p.toList ((trimChars msg.toList).map jsFoldChar))

inductive TurnRoute where
  | directEmailApi
  | streamingAgent
deriving DecidableEq, Repr

/-- How sendMessage handles one turn: which pipeline answers it, and
whether an EventSource to /api/chat/stream is created (i.e. whether the
model is invoked and a StreamChunk sequence occurs). -/
structure TurnPlan where
  route : TurnRoute
  opensEventStream : Bool
deriving DecidableEq, Repr

def planTurn (msg : String) (emailApiOk : Bool) : TurnPlan :=
  if isEmailQuery msg then
    if emailApiOk then { route := .directEmailApi, opensEventStream := false }
    else { route := .streamingAgent, opensEventStream := true }
  else { route := .streamingAgent, opensEventStream := true }

/-- C9: a message whose trimmed text matches the email-intent prefix
pattern is answered from the direct /api/emails/list endpoint when that
call succeeds — no EventSource is opened, so no model invocation and no
StreamChunk sequence occur for the turn; if the direct call fails the
message falls through to the streaming agent, and a non-matching message
always goes to the streaming agent. -/
theorem email_intent_bypasses_stream (msg : String) (apiOk : Bool) :
    (isEmailQuery msg = true → apiOk = true →
      planTurn msg apiOk = { route := .directEmailApi, opensEventStream := false }) ∧
    (isEmailQuery msg = true → apiOk = false →
      planTurn msg apiOk = { route := .streamingAgent, opensEventStream := true }) ∧
    (isEmailQuery msg = false →
      planTurn msg apiOk = { route := .streamingAgent, opensEventStream := true }) := by
  refine ⟨?_, ?_, ?_⟩ <;> intro h <;>
    first
      | (intro hok; simp [planTurn, h, hok])
      | simp [planTurn, h]

/-- Witness for C9: "  Check EMAIL từ sếp " matches the pattern and is
routed to the direct endpoint with no stream; "mail" with a failing direct
call falls through to streaming; "hello there friend" streams. -/
theorem email_intent_bypasses_stream_witness :
    planTurn "  Check EMAIL từ sếp " true =
      { route := .directEmailApi, opensEventStream := false } ∧
    planTurn "mail" false =
      { route := .streamingAgent, opensEventStream := true } ∧
    planTurn "hello there friend" true =
      { route := .streamingAgent, opensEventStream := true } :=
  ⟨(email_intent_bypasses_stream "  Check EMAIL từ sếp " true).1 (by decide) rfl,
   (email_intent_bypasses_stream "mail" false).2.1 (by decide) rfl,
   (email_intent_bypasses_stream "hello there friend" true).2.2 (by decide)⟩

/-! ## Streaming transport

Embedding of the SSE generator of src/unnamed/part_000:

  async def generate():
      if not session_id:
          new_session = service.create_session()
          yield {'type': 'session_id', 'session_id': new_session.id}
      async for chunk in stream_chat_with_gemma(message, session_id, db):
          yield chunk
      yield "[DONE]"

and of the consuming client in
src/frontend/src/components/chat/ChatContainer.tsx, whose onmessage
handler closes the EventSource (ending the turn) on the first error chunk
or on the "[DONE]" sentinel. Chunk names follow the wire format: the
spec's session_started / text_delta / tool_invoked / error / done
correspond to the type "session_id" chunk, "text" chunks, "tool" chunks,
chunks carrying an error field, and the "[DONE]" sentinel; the
"done"-typed data chunk carrying full_response is a data chunk
(fullResponse below), not the terminal sentinel. The inner stream is an
arbitrary chunk list not containing session-id or sentinel chunks
(stream_chat_with_gemma yields data and error chunks only; its
comprehensive exception handling, src/unnamed/part_005, makes it
terminate with an error chunk rather than raise). -/

inductive Chunk where
  | sessionStarted (sid : String)
  | textDelta (s : String)
  | toolInvoked (name : String)
  | fullResponse (full : String)
  | errC (msg : String)
  | doneSentinel
deriving DecidableEq, Repr

def Chunk.isTerminal : Chunk → Bool
  | .errC _ => true
  | .doneSentinel => true
  | _ => false

def Chunk.isData : Chunk → Bool
  | .textDelta _ => true
  | .toolInvoked _ => true
  | .fullResponse _ => true
  | _ => false

/-- A chunk the inner model stream may yield: anything except the
session-id chunk (emitted only by the endpoint wrapper) and the terminal
sentinel (appended only by the endpoint wrapper). -/
def Chunk.innerOk : Chunk → Bool
  | .sessionStarted _ => false
  | .doneSentinel => false
  | _ => true

/-- The chat_stream SSE generator: a session-id chunk when the caller
supplied no session, then the inner stream, then the terminal sentinel. -/
def chatStream (sessionProvided : Bool) (newSid : String) (inner : List Chunk) :
    List Chunk :=
  (if sessionProvided then [] else [Chunk.sessionStarted newSid]) ++
    inner ++ [Chunk.doneSentinel]

/-- The chunk sequence the client actually processes: everything up to
and including the first terminal chunk (the client closes the
EventSource there and ignores anything after). -/
def consumeStream : List Chunk → List Chunk
  | [] => []
  | c :: rest => if c.isTerminal then [c] else c :: consumeStream rest

/-- Grammar of a turn body: zero-or-more data chunks, then exactly one
terminal chunk, which is last. -/
def validBody : List Chunk → Bool
  | [] => false
  | c :: rest =>
    if c.isTerminal then rest.isEmpty
    else c.isData && validBody rest

def stripSession : List Chunk → List Chunk
  | .sessionStarted _ :: rest => rest
  | l => l

/-- Grammar of a full turn: zero-or-one leading session chunk, then a
valid body — hence at most one terminal chunk, which closes the turn, so
no done follows an error. -/
def validTurn (l : List Chunk) : Bool := validBody (stripSession l)

def endsWithTerminal (l : List Chunk) : Bool :=
  match l.getLast? with
  | some c => c.isTerminal
  | none => false

theorem validBody_consume_append_done (l : List Chunk)
    (h : l.all Chunk.innerOk = true) :
    validBody (consumeStream (l ++ [Chunk.doneSentinel])) = true := by
  induction l with
  | nil => decide
  | cons c t ih =>
    have hc : Chunk.innerOk c = true := by
      have := List.all_eq_true.mp h c (List.mem_cons_self c t)
      exact this
    have ht : t.all Chunk.innerOk = true :=
      List.all_eq_true.mpr fun x hx => List.all_eq_true.mp h x (List.mem_cons_of_mem c hx)
    cases c with
    | sessionStarted s => simp [Chunk.innerOk] at hc
    | doneSentinel => simp [Chunk.innerOk] at hc
    | errC m =>
      simp [consumeStream, Chunk.isTerminal, validBody]
    | textDelta s =>
      simp [consumeStream, Chunk.isTerminal, validBody, Chunk.isData, ih ht]
    | toolInvoked n =>
      simp [consumeStream, Chunk.isTerminal, validBody, Chunk.isData, ih ht]
    | fullResponse f =>
      simp [consumeStream, Chunk.isTerminal, validBody, Chunk.isData, ih ht]

theorem stripSession_consume_append_done (l : List Chunk)
    (h : l.all Chunk.innerOk = true) :
    stripSession (consumeStream (l ++ [Chunk.doneSentinel])) =
      consumeStream (l ++ [Chunk.doneSentinel]) := by
  cases l with
  | nil => decide
  | cons c t =>
    have hc : Chunk.innerOk c = true :=
      List.all_eq_true.mp h c (List.mem_cons_self c t)
    cases c with
    | sessionStarted s => simp [Chunk.innerOk] at hc
    | doneSentinel => simp [Chunk.innerOk] at hc
    | errC m => simp [consumeStream, Chunk.isTerminal, stripSession]
    | textDelta s => simp [consumeStream, Chunk.isTerminal, stripSession]
    | toolInvoked n => simp [consumeStream, Chunk.isTerminal, stripSession]
    | fullResponse f => simp [consumeStream, Chunk.isTerminal, stripSession]

theorem validBody_endsWithTerminal (l : List Chunk) (h : validBody l = true) :
    endsWithTerminal l = true := by
  induction l with
  | nil => simp [validBody] at h
  | cons c t ih =>
    by_cases hc : c.isTerminal = true
    · have hrest : t.isEmpty = true := by
        simpa [validBody, hc] using h
      have ht : t = [] := by
        cases t with
        | nil => rfl
        | cons x xs => simp [List.isEmpty] at hrest
      subst ht
      simp [endsWithTerminal, hc]
    · have h' : c.isData = true ∧ validBody t = true := by
        have hcf : c.isTerminal = false := by
          cases hh : c.isTerminal with
          | false => rfl
          | true => exact absurd hh hc
        simpa [validBody, hcf] using h
      have htail := ih h'.2
      have hne : t ≠ [] := by
        intro heq
        rw [heq] at h'
        simp [validBody] at h'
      cases t with
      | nil => exact absurd rfl hne
      | cons x xs =>
        simpa [endsWithTerminal, List.getLast?] using htail

/-- C3: for every turn, the chunk sequence the client processes matches
the grammar: zero-or-one session chunk first, then zero-or-more data
chunks (text / tool / full-response), then exactly one terminal chunk —
an error chunk or the done sentinel, whichever comes first — and nothing
after it, so an error ends the stream with no done following; and a
terminal chunk is present in every turn, including turns whose inner
stream carries an error chunk from a failing model backend. -/
theorem stream_chunk_order (sessionProvided : Bool) (newSid : String)
    (inner : List Chunk) (hinner : inner.all Chunk.innerOk = true) :
    validTurn (consumeStream (chatStream sessionProvided newSid inner)) = true ∧
    endsWithTerminal (consumeStream (chatStream sessionProvided newSid inner)) = true := by
  have hbody := validBody_consume_append_done inner hinner
  cases sessionProvided with
  | true =>
    have hstream : chatStream true newSid inner = inner ++ [Chunk.doneSentinel] := by
      simp [chatStream]
    rw [hstream]
    have hstrip := stripSession_consume_append_done inner hinner
    constructor
    · rw [validTurn, hstrip]
      exact hbody
    · exact validBody_endsWithTerminal _ hbody
  | false =>
    have hstream : chatStream false newSid inner =
        Chunk.sessionStarted newSid :: (inner ++ [Chunk.doneSentinel]) := by
      simp [chatStream]
    rw [hstream]
    have hcons : consumeStream (Chunk.sessionStarted newSid :: (inner ++ [Chunk.doneSentinel])) =
        Chunk.sessionStarted newSid :: consumeStream (inner ++ [Chunk.doneSentinel]) := by
      simp [consumeStream, Chunk.isTerminal]
    rw [hcons]
    constructor
    · rw [validTurn, stripSession]
      exact hbody
    · have hterm := validBody_endsWithTerminal _ hbody
      have hne : consumeStream (inner ++ [Chunk.doneSentinel]) ≠ [] := by
        intro heq
        rw [heq] at hbody
        simp [validBody] at hbody
      cases hcs : consumeStream (inner ++ [Chunk.doneSentinel]) with
      | nil => exact absurd hcs hne
      | cons x xs =>
        rw [hcs] at hterm
        simpa [endsWithTerminal, List.getLast?] using hterm

/-- Witness for C3: a turn with no supplied session whose inner stream
emits text, a tool notification, an error from the failing backend and a
stray trailing chunk; the client-processed sequence is session chunk,
text, tool, error — a valid turn ending in a terminal chunk, with no done
after the error. -/
theorem stream_chunk_order_witness :
    validTurn (consumeStream (chatStream false "s-17"
      [Chunk.textDelta "Hel", Chunk.toolInvoked "search_gmail",
       Chunk.errC "model timeout", Chunk.textDelta "stray"])) = true ∧
    endsWithTerminal (consumeStream (chatStream false "s-17"
      [Chunk.textDelta "Hel", Chunk.toolInvoked "search_gmail",
       Chunk.errC "model timeout", Chunk.textDelta "stray"])) = true :=
  stream_chunk_order false "s-17"
    [Chunk.textDelta "Hel", Chunk.toolInvoked "search_gmail",
     Chunk.errC "model timeout", Chunk.textDelta "stray"] (by decide)

/-! ## Client session navigation

Embedding of the EventSource handlers of
src/frontend/src/components/chat/ChatContainer.tsx (lines 148-170):
onmessage records chunk.session_id into newSessionId and returns; on
"[DONE]" it closes the stream and calls onSessionCreated(newSessionId)
when one was recorded; on an error chunk it closes without navigating;
onerror (connection error) closes without navigating. -/

inductive ClientEvent where
  | data (c : Chunk)
  | connError
deriving DecidableEq, Repr

def ClientEvent.isTerminalEv : ClientEvent → Bool
  | .connError => true
  | .data c => c.isTerminal

structure ClientState where
  closed : Bool
  newSessionId : Option String
  navigatedTo : Option String
deriving DecidableEq, Repr

def initialClientState : ClientState :=
  { closed := false, newSessionId := none, navigatedTo := none }

def clientStep (st : ClientState) (ev : ClientEvent) : ClientState :=
  if st.closed then st
  else
    match ev with
    | .connError => { st with closed := true }
    | .data .doneSentinel => { st with closed := true, navigatedTo := st.newSessionId }
    | .data (.sessionStarted s) => { st with newSessionId := some s }
    | .data (.errC _) => { st with closed := true }
    | .data _ => st

def clientRun (evs : List ClientEvent) : ClientState :=
  evs.foldl clientStep initialClientState

def firstTerminal (evs : List ClientEvent) : Option ClientEvent :=
  evs.find? ClientEvent.isTerminalEv

theorem foldl_clientStep_closed (evs : List ClientEvent) (st : ClientState)
    (h : st.closed = true) : evs.foldl clientStep st = st := by
  induction evs with
  | nil => rfl
  | cons ev t ih =>
    have hstep : clientStep st ev = st := by
      simp [clientStep, h]
    rw [List.foldl_cons, hstep]
    exact ih

theorem clientRun_general (evs : List ClientEvent) :
    ∀ st : ClientState, st.closed = false → st.navigatedTo = none →
    ((evs.foldl clientStep st).navigatedTo.isSome →
      evs.find? ClientEvent.isTerminalEv = some (.data .doneSentinel)) ∧
    (∀ s, (evs.foldl clientStep st).navigatedTo = some s →
      st.newSessionId = some s ∨ ClientEvent.data (.sessionStarted s) ∈ evs) := by
  induction evs with
  | nil =>
    intro st hc hn
    constructor
    · intro hs
      rw [List.foldl_nil, hn] at hs
      simp at hs
    · intro s hs
      rw [List.foldl_nil, hn] at hs
      simp at hs
  | cons ev t ih =>
    intro st hc hn
    cases ev with
    | connError =>
      have hstep : clientStep st .connError = { st with closed := true } := by
        simp [clientStep, hc]
      have hfroz := foldl_clientStep_closed t { st with closed := true } rfl
      constructor
      · intro hs
        rw [List.foldl_cons, hstep, hfroz] at hs
        simp only at hs
        rw [hn] at hs
        simp at hs
      · intro s hs
        rw [List.foldl_cons, hstep, hfroz] at hs
        simp only at hs
        rw [hn] at hs
        simp at hs
    | data c =>
      cases c with
      | doneSentinel =>
        have hstep : clientStep st (.data .doneSentinel) =
            { st with closed := true, navigatedTo := st.newSessionId } := by
          simp [clientStep, hc]
        have hfroz := foldl_clientStep_closed t
          { st with closed := true, navigatedTo := st.newSessionId } rfl
        constructor
        · intro _
          simp [List.find?, ClientEvent.isTerminalEv, Chunk.isTerminal]
        · intro s hs
          rw [List.foldl_cons, hstep, hfroz] at hs
          exact Or.inl hs
      | errC m =>
        have hstep : clientStep st (.data (.errC m)) = { st with closed := true } := by
          simp [clientStep, hc]
        have hfroz := foldl_clientStep_closed t { st with closed := true } rfl
        constructor
        · intro hs
          rw [List.foldl_cons, hstep, hfroz] at hs
          simp only at hs
          rw [hn] at hs
          simp at hs
        · intro s hs
          rw [List.foldl_cons, hstep, hfroz] at hs
          simp only at hs
          rw [hn] at hs
          simp at hs
      | sessionStarted s' =>
        have hstep : clientStep st (.data (.sessionStarted s')) =
            { st with newSessionId := some s' } := by
          simp [clientStep, hc]
        have hih := ih { st with newSessionId := some s' } (by simp [hc]) (by simp [hn])
        constructor
        · intro hs
          rw [List.foldl_cons, hstep] at hs
          have := hih.1 hs
          simpa [List.find?, ClientEvent.isTerminalEv, Chunk.isTerminal] using this
        · intro s hs
          rw [List.foldl_cons, hstep] at hs
          rcases hih.2 s hs with hid | hmem
          · simp only at hid
            have : s' = s := by
              simpa using hid
            subst this
            exact Or.inr (List.mem_cons_self _ _)
          · exact Or.inr (List.mem_cons_of_mem _ hmem)
      | textDelta s' =>
        have hstep : clientStep st (.data (.textDelta s')) = st := by
          simp [clientStep, hc]
        have hih := ih st hc hn
        constructor
        · intro hs
          rw [List.foldl_cons, hstep] at hs
          have := hih.1 hs
          simpa [List.find?, ClientEvent.isTerminalEv, Chunk.isTerminal] using this
        · intro s hs
          rw [List.foldl_cons, hstep] at hs
          rcases hih.2 s hs with hid | hmem
          · exact Or.inl hid
          · exact Or.inr (List.mem_cons_of_mem _ hmem)
      | toolInvoked n =>
        have hstep : clientStep st (.data (.toolInvoked n)) = st := by
          simp [clientStep, hc]
        have hih := ih st hc hn
        constructor
        · intro hs
          rw [List.foldl_cons, hstep] at hs
          have := hih.1 hs
          simpa [List.find?, ClientEvent.isTerminalEv, Chunk.isTerminal] using this
        · intro s hs
          rw [List.foldl_cons, hstep] at hs
          rcases hih.2 s hs with hid | hmem
          · exact Or.inl hid
          · exact Or.inr (List.mem_cons_of_mem _ hmem)
      | fullResponse f =>
        have hstep : clientStep st (.data (.fullResponse f)) = st := by
          simp [clientStep, hc]
        have hih := ih st hc hn
        constructor
        · intro hs
          rw [List.foldl_cons, hstep] at hs
          have := hih.1 hs
          simpa [List.find?, ClientEvent.isTerminalEv, Chunk.isTerminal] using this
        · intro s hs
          rw [List.foldl_cons, hstep] at hs
          rcases hih.2 s hs with hid | hmem
          · exact Or.inl hid
          · exact Or.inr (List.mem_cons_of_mem _ hmem)

/-- C10: the client navigates (invokes onSessionCreated) only upon the
terminal [DONE] sentinel: if navigation happened, the first terminal
event the client saw was [DONE] (so never the session-id chunk itself,
and never a stream that ends with an error chunk or a connection error,
and never a stream with no terminal at all), and the session id navigated
to was recorded from a session-id chunk of the stream. -/
theorem client_navigates_only_on_done (evs : List ClientEvent) :
    ((clientRun evs).navigatedTo.isSome →
      firstTerminal evs = some (.data .doneSentinel)) ∧
    (∀ s, (clientRun evs).navigatedTo = some s →
      ClientEvent.data (.sessionStarted s) ∈ evs) ∧
    (∀ m, firstTerminal evs = some (.data (.errC m)) →
      (clientRun evs).navigatedTo = none) ∧
    (firstTerminal evs = some .connError → (clientRun evs).navigatedTo = none) ∧
    (firstTerminal evs = none → (clientRun evs).navigatedTo = none) := by
  have hgen := clientRun_general evs initialClientState rfl rfl
  have h1 : (clientRun evs).navigatedTo.isSome →
      firstTerminal evs = some (.data .doneSentinel) := hgen.1
  have hnone : ∀ (o : Option ClientEvent), firstTerminal evs = o →
      o ≠ some (.data .doneSentinel) → (clientRun evs).navigatedTo = none := by
    intro o ho hne
    cases hnav : (clientRun evs).navigatedTo with
    | none => rfl
    | some s =>
      have := h1 (by simp [hnav])
      rw [ho] at this
      exact absurd this.symm (Ne.symm hne)
  refine ⟨h1, ?_, ?_, ?_, ?_⟩
  · intro s hs
    rcases hgen.2 s hs with hid | hmem
    · simp [initialClientState] at hid
    · exact hmem
  · intro m hm
    exact hnone _ hm (by simp)
  · intro hm
    exact hnone _ hm (by simp)
  · intro hm
    exact hnone _ hm (by simp)

/-- Witness for C10: a stream that auto-creates session "s-17", streams
text, and terminates with [DONE]: the client navigates, the first
terminal event is [DONE], and the navigation target was recorded from the
session-id chunk. -/
theorem client_navigates_only_on_done_witness :
    firstTerminal
        [ClientEvent.data (.sessionStarted "s-17"),
         ClientEvent.data (.textDelta "Hello"),
         ClientEvent.data .doneSentinel] = some (.data .doneSentinel) ∧
    ClientEvent.data (.sessionStarted "s-17") ∈
      [ClientEvent.data (.sessionStarted "s-17"),
       ClientEvent.data (.textDelta "Hello"),
       ClientEvent.data .doneSentinel] :=
  ⟨(client_navigates_only_on_done
      [ClientEvent.data (.sessionStarted "s-17"),
       ClientEvent.data (.textDelta "Hello"),
       ClientEvent.data .doneSentinel]).1 (by decide),
   (client_navigates_only_on_done
      [ClientEvent.data (.sessionStarted "s-17"),
       ClientEvent.data (.textDelta "Hello"),
       ClientEvent.data .doneSentinel]).2.1 "s-17" (by decide)⟩

/-! ## Memory Store: concurrency discipline

Interleaving model of N concurrent store calls against the lock-and-retry
discipline of src/ARCHITECTURE.md: every retry attempt takes the single
process-wide _chroma_lock, performs the underlying engine call inside the
`with _chroma_lock:` block, and releases it. A call performing `a`
attempts is the lock-level trace of `a` such blocks; the scheduler picks
any enabled call at each step (an acquire is enabled only when the lock
is free; the engine actions and the release only while the call holds the
lock, mirroring the `with` statement). Index corruption — the "attempt to
write a readonly database" failure mode the lock exists to prevent — is
modelled as two distinct calls being inside the engine simultaneously. -/

inductive LockAction where
  | acquire
  | enterEngine
  | exitEngine
  | release
deriving DecidableEq, Repr

/-- One retry attempt as seen by the lock: take the process-wide lock,
perform the engine call (entry and completion), release. -/
def attemptBlock : List LockAction :=
  [.acquire, .enterEngine, .exitEngine, .release]

/-- The lock-level trace of one store call performing the given number of
attempts. -/
def callProg : Nat → List LockAction
  | 0 => []
  | a + 1 => attemptBlock ++ callProg a

def blockAction : Nat → LockAction
  | 0 => .acquire
  | 1 => .enterEngine
  | 2 => .exitEngine
  | _ => .release

theorem length_callProg (a : Nat) : (callProg a).length = 4 * a := by
  induction a with
  | zero => rfl
  | succ k ih =>
    simp only [callProg, List.length_append, ih, attemptBlock]
    simp [List.length]
    ring

theorem callProg_get? (a : Nat) : ∀ k, k < 4 * a →
    (callProg a).get? k = some (blockAction (k % 4)) := by
  induction a with
  | zero => intro k hk; omega
  | succ a ih =>
    intro k hk
    by_cases h4 : k < 4
    · interval_cases k <;> rfl
    · have hle : attemptBlock.length ≤ k := by
        simp [attemptBlock]
        omega
      rw [callProg, List.get?_eq_getElem?, List.getElem?_append_right hle]
      have hlen : attemptBlock.length = 4 := rfl
      rw [hlen, ← List.get?_eq_getElem?]
      rw [ih (k - 4) (by omega)]
      have : (k - 4) % 4 = k % 4 := by omega
      rw [this]

theorem callProg_action (a k : Nat) (act : LockAction)
    (h : (callProg a).get? k = some act) : act = blockAction (k % 4) := by
  have hk : k < (callProg a).length := by
    by_contra hnk
    rw [List.get?_len_le (by omega)] at h
    exact Option.noConfusion h
  rw [length_callProg] at hk
  rw [callProg_get? a k hk] at h
  exact (Option.some.inj h).symm

theorem blockAction_release_index : ∀ r, r < 4 → blockAction r = .release → r = 3 := by
  decide

/-- Global state of N concurrent store calls: the holder of the
process-wide lock (none when free) and each call's position in its
lock-level trace. -/
structure SysState (n : Nat) where
  lock : Option (Fin n)
  pc : Fin n → Nat

/-- One interleaving step: some call executes its next action. Taking the
lock requires it to be free; the engine actions and the release require
the executing call to hold it (the body of `with _chroma_lock:`). -/
inductive LockStep {n : Nat} (progs : Fin n → List LockAction) :
    SysState n → SysState n → Prop where
  | acquire (s : SysState n) (i : Fin n)
      (ha : (progs i).get? (s.pc i) = some .acquire) (hl : s.lock = none) :
      LockStep progs s ⟨some i, Function.update s.pc i (s.pc i + 1)⟩
  | enterEngine (s : SysState n) (i : Fin n)
      (ha : (progs i).get? (s.pc i) = some .enterEngine) (hl : s.lock = some i) :
      LockStep progs s ⟨some i, Function.update s.pc i (s.pc i + 1)⟩
  | exitEngine (s : SysState n) (i : Fin n)
      (ha : (progs i).get? (s.pc i) = some .exitEngine) (hl : s.lock = some i) :
      LockStep progs s ⟨some i, Function.update s.pc i (s.pc i + 1)⟩
  | release (s : SysState n) (i : Fin n)
      (ha : (progs i).get? (s.pc i) = some .release) (hl : s.lock = some i) :
      LockStep progs s ⟨none, Function.update s.pc i (s.pc i + 1)⟩

def initState (n : Nat) : SysState n := ⟨none, fun _ => 0⟩

inductive LockReach {n : Nat} (progs : Fin n → List LockAction) : SysState n → Prop where
  | init : LockReach progs (initState n)
  | step {s t : SysState n} (hr : LockReach progs s) (hs : LockStep progs s t) :
      LockReach progs t

/-- Call i is currently inside the underlying engine call (between
enterEngine and exitEngine of its current attempt block). -/
def insideEngine {n : Nat} (s : SysState n) (i : Fin n) : Prop := s.pc i % 4 = 2

/-- The central lock invariant: any call strictly inside an attempt block
holds the process-wide lock. -/
theorem lockReach_holds_inv {n : Nat} (progs : Fin n → List LockAction)
    (hprogs : ∀ i k act, (progs i).get? k = some act → act = blockAction (k % 4))
    {s : SysState n} (h : LockReach progs s) :
    ∀ i, s.pc i % 4 ≠ 0 → s.lock = some i := by
  induction h with
  | init =>
    intro i hi
    simp [initState] at hi
  | @step s0 t0 hr hstep ih =>
    cases hstep with
    | acquire i ha hl =>
      intro j hj
      dsimp only at hj ⊢
      by_cases hij : j = i
      · subst hij
        rfl
      · rw [Function.update_noteq hij] at hj
        have hcontra := ih j hj
        rw [hl] at hcontra
        exact absurd hcontra (by simp)
    | enterEngine i ha hl =>
      intro j hj
      dsimp only at hj ⊢
      by_cases hij : j = i
      · subst hij
        rfl
      · rw [Function.update_noteq hij] at hj
        have h2 := ih j hj
        rw [hl] at h2
        exact h2
    | exitEngine i ha hl =>
      intro j hj
      dsimp only at hj ⊢
      by_cases hij : j = i
      · subst hij
        rfl
      · rw [Function.update_noteq hij] at hj
        have h2 := ih j hj
        rw [hl] at h2
        exact h2
    | release i ha hl =>
      intro j hj
      dsimp only at hj ⊢
      by_cases hij : j = i
      · subst hij
        rw [Function.update_same] at hj
        have hact := hprogs j (s0.pc j) .release ha
        have hm : s0.pc j % 4 < 4 := Nat.mod_lt _ (by norm_num)
        have h3 : s0.pc j % 4 = 3 :=
          blockAction_release_index (s0.pc j % 4) hm hact.symm
        exfalso
        omega
      · rw [Function.update_noteq hij] at hj
        have h2 := ih j hj
        rw [hl] at h2
        exact absurd (Option.some.inj h2).symm hij

/-- The lock-level traces of N concurrent store calls, each driven by its
own engine oracle: call i performs exactly the number of attempts the
retry loop makes against engine `engs i`. -/
def progsOf {n : Nat} (engs : Fin n → Nat → AttemptOutcome) : Fin n → List LockAction :=
  fun i => callProg (storeAttemptCount (engs i))

theorem storeOp_succeeds_or_exhausts (engine : Nat → AttemptOutcome) :
    (storeResult engine).isOk = true ∨
    (storeResult engine = .storeUnavailable ∧
      storeAttemptCount engine = MAX_RETRIES) := by
  cases e0 : engine 0 with
  | success v =>
    left
    simp [storeResult, storeOp, MAX_RETRIES, runAttempts, e0, StoreResult.isOk]
  | failure m0 =>
    cases e1 : engine 1 with
    | success v =>
      left
      simp [storeResult, storeOp, MAX_RETRIES, runAttempts, e0, e1, StoreResult.isOk]
    | failure m1 =>
      cases e2 : engine 2 with
      | success v =>
        left
        simp [storeResult, storeOp, MAX_RETRIES, runAttempts, e0, e1, e2, StoreResult.isOk]
      | failure m2 =>
        right
        constructor <;>
          simp [storeResult, storeAttemptCount, storeOp, MAX_RETRIES, runAttempts,
            e0, e1, e2]

/-- C2: in every state reachable by any interleaving of N concurrent
store calls, (a) any call inside the underlying engine call holds the
single process-wide exclusive lock — every mutating operation and every
consistent read performs its engine call only under the lock; (b) no two
distinct calls are inside the engine simultaneously, so no call can
corrupt the persistent index; and (c) independently of the schedule, each
call either succeeds or returns StoreUnavailable after exactly
MAX_RETRIES attempts. -/
theorem store_concurrent_calls_safe {n : Nat} (engs : Fin n → Nat → AttemptOutcome)
    (s : SysState n) (hreach : LockReach (progsOf engs) s) :
    (∀ i, insideEngine s i → s.lock = some i) ∧
    (∀ i j, insideEngine s i → insideEngine s j → i = j) ∧
    (∀ i, (storeResult (engs i)).isOk = true ∨
      (storeResult (engs i) = .storeUnavailable ∧
        storeAttemptCount (engs i) = MAX_RETRIES)) := by
  have hprogs : ∀ i k act, (progsOf engs i).get? k = some act → act = blockAction (k % 4) :=
    fun i k act h => callProg_action _ k act h
  have hinv := lockReach_holds_inv (progsOf engs) hprogs hreach
  refine ⟨?_, ?_, ?_⟩
  · intro i hi
    have hi2 : s.pc i % 4 = 2 := hi
    exact hinv i (by omega)
  · intro i j hi hj
    have hi2 : s.pc i % 4 = 2 := hi
    have hj2 : s.pc j % 4 = 2 := hj
    have h1 := hinv i (by omega)
    have h2 := hinv j (by omega)
    exact Option.some.inj (h1.symm.trans h2)
  · intro i
    exact storeOp_succeeds_or_exhausts (engs i)

/-- A reachable demonstration state: two concurrent calls against an
always-locked engine, after call 0 acquired the lock and entered the
engine call. -/
def twoCallDemoState : SysState 2 :=
  ⟨some 0, Function.update (Function.update (fun _ => 0) 0 1) 0 2⟩

theorem twoCallDemoState_reachable :
    LockReach (progsOf (fun _ : Fin 2 => alwaysLockedEngine)) twoCallDemoState := by
  have h0 : LockReach (progsOf (fun _ : Fin 2 => alwaysLockedEngine)) (initState 2) :=
    LockReach.init
  have h1 := LockReach.step h0
    (LockStep.acquire (initState 2) 0 (by decide) rfl)
  have h2 := LockReach.step h1
    (LockStep.enterEngine _ 0 (by decide) rfl)
  exact h2

/-- Witness for C2: in the demonstration state the lock is held by the
call inside the engine, and against the always-locked engine each call
returns StoreUnavailable after exactly MAX_RETRIES attempts. -/
theorem store_concurrent_calls_safe_witness :
    twoCallDemoState.lock = some 0 ∧
    (storeResult alwaysLockedEngine = .storeUnavailable ∧
      storeAttemptCount alwaysLockedEngine = MAX_RETRIES) := by
  have h := store_concurrent_calls_safe (fun _ : Fin 2 => alwaysLockedEngine)
    twoCallDemoState twoCallDemoState_reachable
  refine ⟨h.1 0 (by decide : twoCallDemoState.pc 0 % 4 = 2), ?_⟩
  rcases h.2.2 0 with hok | hab
  · exact absurd hok (by decide)
  · exact hab

end EMO
